import Mathlib

/-!
Verification of the task-list state core of `src/src/App.tsx`
("Minhas Tarefas"), a single-page todo application.

The pure state logic of the component (the task collection, the four
mutations `addTodo` / `toggleTodo` / `deleteTodo` / clear-completed, the
derived view `filteredTodos` and the `stats` aggregate) is embedded as
Lean functions over `List Todo`.  Persistence through `localStorage` and
`JSON.stringify` / `JSON.parse` is modelled at the level of JSON values:
the durable store maps string keys to JSON value trees, serialization of
the collection builds the array-of-objects tree described by the spec's
storage format, and deserialization reads it back, failing on any value
that does not have the task-array shape (the `MalformedStateError` of the
spec).  The text layer (JSON value ↔ JSON source text) is the platform's
and is not re-modelled; `JSON.parse (JSON.stringify v)` is the identity
on the value tree.
-/

namespace MinhasTarefas

/-- The `Todo` interface of `App.tsx` (lines 17-22):
`{ id: string; text: string; completed: boolean; createdAt: number }`.
`createdAt` is `Date.now()`, an integer count of milliseconds. -/
structure Todo where
  id : String
  text : String
  completed : Bool
  createdAt : Nat
deriving DecidableEq, Repr

/-- The `FilterType` union of `App.tsx` (line 24): `'all' | 'pending' | 'completed'`. -/
inductive FilterType where
  | all
  | pending
  | completed
deriving DecidableEq, Repr

/-- A JSON value tree, the result of `JSON.parse` / the input of
`JSON.stringify`.  Numbers are restricted to the naturals, which covers
every number the application ever stores (`Date.now()` timestamps). -/
inductive Json where
  | null
  | bool (b : Bool)
  | num (n : Nat)
  | str (s : String)
  | arr (elems : List Json)
  | obj (fields : List (String × Json))

/-- `filteredTodos` of `App.tsx` (lines 39-48), the spec's
`deriveView(filter)`: `pending` keeps tasks with `!t.completed`,
`completed` keeps tasks with `t.completed`, the default case (`all`)
returns the collection unchanged. -/
def filteredTodos (filter : FilterType) (todos : List Todo) : List Todo :=
  match filter with
  | .pending => todos.filter fun t => !t.completed
  | .completed => todos.filter fun t => t.completed
  | .all => todos

/-- `String.prototype.trim` (platform), modelled over the character list:
drop whitespace characters from both ends of the string. -/
def jsTrim (s : String) : String :=
  ⟨((s.data.dropWhile Char.isWhitespace).reverse.dropWhile Char.isWhitespace).reverse⟩

/-- The pure collection update of `addTodo` in `App.tsx` (lines 50-63):
`if (!inputValue.trim()) return;` makes the operation a no-op exactly when
the trimmed input is empty (the only falsy string); otherwise the new todo
`{ id: crypto.randomUUID(), text: inputValue.trim(), completed: false,
createdAt: Date.now() }` is prepended (`setTodos(prev => [newTodo, ...prev])`).
The generated id and the current time are parameters of the embedding. -/
def addTodo (inputValue : String) (freshId : String) (now : Nat)
    (todos : List Todo) : List Todo :=
  if (jsTrim inputValue).isEmpty then todos
  else { id := freshId, text := jsTrim inputValue, completed := false,
         createdAt := now } :: todos

/-- `toggleTodo` of `App.tsx` (lines 65-69):
`prev.map(todo => todo.id === id ? { ...todo, completed: !todo.completed } : todo)`. -/
def toggleTodo (id : String) (todos : List Todo) : List Todo :=
  todos.map fun todo =>
    if todo.id == id then { todo with completed := !todo.completed } else todo

/-- `deleteTodo` of `App.tsx` (lines 71-73):
`prev.filter(todo => todo.id !== id)`. -/
def deleteTodo (id : String) (todos : List Todo) : List Todo :=
  todos.filter fun todo => todo.id != id

/-- The clear-completed update of the footer button in `App.tsx`
(line 208): `prev.filter(t => !t.completed)`. -/
def clearCompleted (todos : List Todo) : List Todo :=
  todos.filter fun t => !t.completed

/-- The shape of the `stats` object of `App.tsx` (lines 75-79). -/
structure Stats where
  total : Nat
  pending : Nat
  completed : Nat
deriving DecidableEq, Repr

/-- `stats` of `App.tsx` (lines 75-79): `total` is `todos.length`,
`pending` counts `!t.completed`, `completed` counts `t.completed`. -/
def stats (todos : List Todo) : Stats :=
  { total := todos.length
    pending := (todos.filter fun t => !t.completed).length
    completed := (todos.filter fun t => t.completed).length }

/-- Serialization of one task.  `JSON.stringify` turns the `Todo` object
into a JSON object whose fields appear in the declaration order of
`App.tsx` lines 54-59. -/
def encodeTodo (t : Todo) : Json :=
  .obj [("id", .str t.id), ("text", .str t.text),
        ("completed", .bool t.completed), ("createdAt", .num t.createdAt)]

/-- `JSON.stringify(todos)` (line 36) at the JSON value level: the array
of the encoded tasks, in collection order. -/
def encodeTodos (todos : List Todo) : Json :=
  .arr (todos.map encodeTodo)

/-- Modelled from the spec: `JSON.parse` (line 29) is platform code not
present in the repository.  Reading one task record back is modelled as
extracting the four fields of the storage format of spec §6
(`{ id: string, text: string, completed: boolean, createdAt: number }`);
any other shape is the spec's `MalformedStateError` (§4.1, §7). -/
def decodeTodo (j : Json) : Except String Todo :=
  match j with
  | .obj fields =>
    match fields.lookup "id", fields.lookup "text",
          fields.lookup "completed", fields.lookup "createdAt" with
    | some (.str i), some (.str tx), some (.bool c), some (.num n) =>
        .ok { id := i, text := tx, completed := c, createdAt := n }
    | _, _, _, _ => .error "MalformedStateError"
  | _ => .error "MalformedStateError"

/-- Modelled from the spec: deserialization of the stored value
(`JSON.parse(saved)`, line 29) into the task collection.  The stored
value must be an array of task records (spec §6); anything else is the
spec's `MalformedStateError`, which propagates. -/
def decodeTodos (j : Json) : Except String (List Todo) :=
  match j with
  | .arr elems => elems.mapM decodeTodo
  | _ => .error "MalformedStateError"

/-- Modelled from the spec: the well-shapedness predicate of spec §6 for
one array element, `{ id: string, text: string, completed: boolean,
createdAt: number }`, stated independently of `decodeTodo`. -/
def isTaskRecord (j : Json) : Bool :=
  match j with
  | .obj fields =>
    (match fields.lookup "id" with | some (.str _) => true | _ => false) &&
    (match fields.lookup "text" with | some (.str _) => true | _ => false) &&
    (match fields.lookup "completed" with | some (.bool _) => true | _ => false) &&
    (match fields.lookup "createdAt" with | some (.num _) => true | _ => false)
  | _ => false

/-- Modelled from the spec: the "expected task-array shape" of spec §4.1 /
§7 — a JSON array all of whose elements are task records. -/
def isTaskArray (j : Json) : Bool :=
  match j with
  | .arr elems => elems.all isTaskRecord
  | _ => false

/-- The durable key-value store (`localStorage`), holding serialized
values at string keys; the serialized text is represented by its JSON
value tree. -/
def LocalStorage : Type := List (String × Json)

/-- `localStorage.getItem(key)`: the value stored at `key`, if any. -/
def getItem (store : LocalStorage) (key : String) : Option Json :=
  List.lookup key store

/-- `localStorage.setItem(key, v)`: overwrite the value at `key`
completely (last write wins, spec §4.1). -/
def setItem (store : LocalStorage) (key : String) (v : Json) : LocalStorage :=
  (key, v) :: List.eraseP (fun kv => kv.1 == key) store

/-- The fixed storage key `'todos'` of `App.tsx` (lines 28, 36). -/
def todosKey : String := "todos"

/-- The `useState` initializer of `App.tsx` (lines 27-30), the spec's
`load()`: read the value under the fixed key; when absent the collection
starts empty (`saved ? JSON.parse(saved) : []`), when present it is
deserialized, and a malformed value makes the initializer fail with the
propagating `MalformedStateError`. -/
def loadTodos (store : LocalStorage) : Except String (List Todo) :=
  match getItem store todosKey with
  | none => .ok []
  | some j => decodeTodos j

/-- The persistence `useEffect` body of `App.tsx` (lines 35-37), the
spec's `save(collection)`:
`localStorage.setItem('todos', JSON.stringify(todos))`. -/
def saveTodos (store : LocalStorage) (todos : List Todo) : LocalStorage :=
  setItem store todosKey (encodeTodos todos)

/-- The observable state of one running instance of the `App` component:
the in-memory collection (the `todos` state), the durable store, and a
count of `setItem` writes performed so far (so that "no persistence write
is triggered" is statable). -/
structure AppState where
  todos : List Todo
  store : LocalStorage
  writes : Nat

/-- The persistence `useEffect` (lines 35-37) as a state transformer: it
runs after every commit in which the `todos` state was set, writing the
serialized collection under the fixed key. -/
def persistEffect (s : AppState) : AppState :=
  { s with store := saveTodos s.store s.todos, writes := s.writes + 1 }

/-- One `addTodo` event (lines 50-63): when the trimmed input is empty
the handler returns before calling `setTodos`, so nothing changes and the
effect does not re-run; otherwise the new collection is set and the
persistence effect runs. -/
def stepAdd (inputValue : String) (freshId : String) (now : Nat)
    (s : AppState) : AppState :=
  if (jsTrim inputValue).isEmpty then s
  else persistEffect { s with todos := addTodo inputValue freshId now s.todos }

/-- One `toggleTodo` event (lines 65-69): `setTodos` is always called
(the mapped array is a fresh one), so the persistence effect always
re-runs. -/
def stepToggle (id : String) (s : AppState) : AppState :=
  persistEffect { s with todos := toggleTodo id s.todos }

/-- One `deleteTodo` event (lines 71-73). -/
def stepDelete (id : String) (s : AppState) : AppState :=
  persistEffect { s with todos := deleteTodo id s.todos }

/-- One clear-completed event (line 208). -/
def stepClear (s : AppState) : AppState :=
  persistEffect { s with todos := clearCompleted s.todos }

/-- The component state right after mount: the collection is the loaded
one and the persistence effect has run once (a `useEffect` with
dependency `[todos]` also runs after the first render). -/
def initApp (store : LocalStorage) (todos : List Todo) : AppState :=
  persistEffect { todos := todos, store := store, writes := 0 }

/-- One user-driven transition of the running application.  The id handed
to `addTodo` comes from `crypto.randomUUID()`; per spec §3 a generated id
is "unique … never reused", so the step carries the platform's freshness
guarantee as a side condition. -/
inductive Step : AppState → AppState → Prop where
  | add (inputValue freshId : String) (now : Nat) (s : AppState) :
      freshId ∉ s.todos.map Todo.id → Step s (stepAdd inputValue freshId now s)
  | toggle (id : String) (s : AppState) : Step s (stepToggle id s)
  | deleteOne (id : String) (s : AppState) : Step s (stepDelete id s)
  | clearCompleted (s : AppState) : Step s (stepClear s)

/-- States reachable by an actual run: successful initialization from
some durable store, followed by any sequence of user operations. -/
inductive Reachable : AppState → Prop where
  | init (store : LocalStorage) (todos : List Todo) :
      loadTodos store = .ok todos → Reachable (initApp store todos)
  | step {s s' : AppState} : Reachable s → Step s s' → Reachable s'

/-! ### Helper lemmas

Shared facts about the embedding, used by several of the verification
theorems below. -/

/-- Decoding inverts encoding on a single task. -/
theorem decodeTodo_encodeTodo (t : Todo) : decodeTodo (encodeTodo t) = .ok t := by
  simp [decodeTodo, encodeTodo, List.lookup]

/-- `mapM decodeTodo` on a cons with a decodable head and tail. -/
theorem mapM_decode_cons_ok (e : Json) (l : List Json) (t : Todo) (ts : List Todo)
    (h1 : decodeTodo e = .ok t) (h2 : l.mapM decodeTodo = .ok ts) :
    (e :: l).mapM decodeTodo = .ok (t :: ts) := by
  rw [List.mapM_cons, h1, h2]
  rfl

/-- `mapM decodeTodo` propagates a failure of the head. -/
theorem mapM_decode_cons_errhead (e : Json) (l : List Json) (msg : String)
    (h1 : decodeTodo e = .error msg) :
    (e :: l).mapM decodeTodo = .error msg := by
  rw [List.mapM_cons, h1]
  rfl

/-- `mapM decodeTodo` propagates a failure of the tail. -/
theorem mapM_decode_cons_errtail (e : Json) (l : List Json) (t : Todo) (msg : String)
    (h1 : decodeTodo e = .ok t) (h2 : l.mapM decodeTodo = .error msg) :
    (e :: l).mapM decodeTodo = .error msg := by
  rw [List.mapM_cons, h1, h2]
  rfl

/-- Decoding inverts encoding on a whole collection. -/
theorem decodeTodos_encodeTodos (ts : List Todo) :
    decodeTodos (encodeTodos ts) = .ok ts := by
  induction ts with
  | nil => rfl
  | cons t ts ih =>
    simp only [encodeTodos, decodeTodos, List.map_cons] at ih ⊢
    exact mapM_decode_cons_ok _ _ _ _ (decodeTodo_encodeTodo t) ih

/-- Shape analysis of an optional JSON value against the string pattern. -/
theorem optStr_cases (o : Option Json) :
    (∃ s, o = some (Json.str s)) ∨
      ((match o with | some (Json.str _) => true | _ => false) = false ∧
        ∀ s, o ≠ some (Json.str s)) := by
  rcases o with _ | j
  · simp
  · cases j <;> simp

/-- Shape analysis of an optional JSON value against the boolean pattern. -/
theorem optBool_cases (o : Option Json) :
    (∃ b, o = some (Json.bool b)) ∨
      ((match o with | some (Json.bool _) => true | _ => false) = false ∧
        ∀ b, o ≠ some (Json.bool b)) := by
  rcases o with _ | j
  · simp
  · cases j <;> simp

/-- Shape analysis of an optional JSON value against the number pattern. -/
theorem optNum_cases (o : Option Json) :
    (∃ n, o = some (Json.num n)) ∨
      ((match o with | some (Json.num _) => true | _ => false) = false ∧
        ∀ n, o ≠ some (Json.num n)) := by
  rcases o with _ | j
  · simp
  · cases j <;> simp

/-- A record without a string `id` field fails to decode. -/
theorem decodeTodo_err_id (fields : List (String × Json))
    (h : ∀ s, List.lookup "id" fields ≠ some (Json.str s)) :
    decodeTodo (.obj fields) = .error "MalformedStateError" := by
  simp only [decodeTodo]
  split
  · rename_i i tx c n h1 h2 h3 h4
    exact absurd h1 (h i)
  · rfl

/-- A record without a string `text` field fails to decode. -/
theorem decodeTodo_err_text (fields : List (String × Json))
    (h : ∀ s, List.lookup "text" fields ≠ some (Json.str s)) :
    decodeTodo (.obj fields) = .error "MalformedStateError" := by
  simp only [decodeTodo]
  split
  · rename_i i tx c n h1 h2 h3 h4
    exact absurd h2 (h tx)
  · rfl

/-- A record without a boolean `completed` field fails to decode. -/
theorem decodeTodo_err_completed (fields : List (String × Json))
    (h : ∀ b, List.lookup "completed" fields ≠ some (Json.bool b)) :
    decodeTodo (.obj fields) = .error "MalformedStateError" := by
  simp only [decodeTodo]
  split
  · rename_i i tx c n h1 h2 h3 h4
    exact absurd h3 (h c)
  · rfl

/-- A record without a numeric `createdAt` field fails to decode. -/
theorem decodeTodo_err_createdAt (fields : List (String × Json))
    (h : ∀ n, List.lookup "createdAt" fields ≠ some (Json.num n)) :
    decodeTodo (.obj fields) = .error "MalformedStateError" := by
  simp only [decodeTodo]
  split
  · rename_i i tx c n h1 h2 h3 h4
    exact absurd h4 (h n)
  · rfl

/-- A well-shaped record decodes successfully. -/
theorem decodeTodo_ok_of (j : Json) (h : isTaskRecord j = true) :
    ∃ t, decodeTodo j = .ok t := by
  cases j with
  | obj fields =>
    rcases optStr_cases (List.lookup "id" fields) with ⟨s1, e1⟩ | ⟨f1, n1⟩
    · rcases optStr_cases (List.lookup "text" fields) with ⟨s2, e2⟩ | ⟨f2, n2⟩
      · rcases optBool_cases (List.lookup "completed" fields) with ⟨b3, e3⟩ | ⟨f3, n3⟩
        · rcases optNum_cases (List.lookup "createdAt" fields) with ⟨m4, e4⟩ | ⟨f4, n4⟩
          · exact ⟨⟨s1, s2, b3, m4⟩, by simp [decodeTodo, e1, e2, e3, e4]⟩
          · simp [isTaskRecord, f4] at h
        · simp [isTaskRecord, f3] at h
      · simp [isTaskRecord, f2] at h
    · simp [isTaskRecord, f1] at h
  | null => simp [isTaskRecord] at h
  | bool b => simp [isTaskRecord] at h
  | num n => simp [isTaskRecord] at h
  | str s => simp [isTaskRecord] at h
  | arr l => simp [isTaskRecord] at h

/-- An ill-shaped record fails to decode, with the spec's error. -/
theorem decodeTodo_err_of (j : Json) (h : isTaskRecord j = false) :
    decodeTodo j = .error "MalformedStateError" := by
  cases j with
  | obj fields =>
    rcases optStr_cases (List.lookup "id" fields) with ⟨s1, e1⟩ | ⟨f1, n1⟩
    · rcases optStr_cases (List.lookup "text" fields) with ⟨s2, e2⟩ | ⟨f2, n2⟩
      · rcases optBool_cases (List.lookup "completed" fields) with ⟨b3, e3⟩ | ⟨f3, n3⟩
        · rcases optNum_cases (List.lookup "createdAt" fields) with ⟨m4, e4⟩ | ⟨f4, n4⟩
          · simp [isTaskRecord, e1, e2, e3, e4] at h
          · exact decodeTodo_err_createdAt fields n4
        · exact decodeTodo_err_completed fields n3
      · exact decodeTodo_err_text fields n2
    · exact decodeTodo_err_id fields n1
  | null => rfl
  | bool b => rfl
  | num n => rfl
  | str s => rfl
  | arr l => rfl

/-- A list of well-shaped records decodes successfully. -/
theorem mapM_decode_ok_of (elems : List Json)
    (h : ∀ e ∈ elems, isTaskRecord e = true) :
    ∃ ts, elems.mapM decodeTodo = .ok ts := by
  induction elems with
  | nil => exact ⟨[], rfl⟩
  | cons e rest ih =>
    obtain ⟨t, ht⟩ := decodeTodo_ok_of e (h e (by simp))
    obtain ⟨ts, hts⟩ := ih fun x hx => h x (List.mem_cons_of_mem e hx)
    exact ⟨t :: ts, mapM_decode_cons_ok e rest t ts ht hts⟩

/-- A list containing an ill-shaped record fails to decode, with the
spec's error. -/
theorem mapM_decode_err_of (elems : List Json)
    (h : ¬ ∀ e ∈ elems, isTaskRecord e = true) :
    elems.mapM decodeTodo = .error "MalformedStateError" := by
  induction elems with
  | nil => exact absurd (by simp) h
  | cons e rest ih =>
    cases he : isTaskRecord e with
    | false => exact mapM_decode_cons_errhead e rest _ (decodeTodo_err_of e he)
    | true =>
      obtain ⟨t, ht⟩ := decodeTodo_ok_of e he
      have hrest : ¬ ∀ x ∈ rest, isTaskRecord x = true := by
        intro hall
        exact h fun x hx => by
          rcases List.mem_cons.mp hx with rfl | hx2
          · exact he
          · exact hall x hx2
      exact mapM_decode_cons_errtail e rest t _ ht (ih hrest)

/-- A value of task-array shape deserializes successfully. -/
theorem decodeTodos_ok_of (j : Json) (h : isTaskArray j = true) :
    ∃ ts, decodeTodos j = .ok ts := by
  cases j with
  | arr elems =>
    simp only [isTaskArray, List.all_eq_true] at h
    exact mapM_decode_ok_of elems h
  | null => simp [isTaskArray] at h
  | bool b => simp [isTaskArray] at h
  | num n => simp [isTaskArray] at h
  | str s => simp [isTaskArray] at h
  | obj fields => simp [isTaskArray] at h

/-- A value not of task-array shape fails to deserialize, with the spec's
error. -/
theorem decodeTodos_err_of (j : Json) (h : isTaskArray j = false) :
    decodeTodos j = .error "MalformedStateError" := by
  cases j with
  | arr elems =>
    simp only [isTaskArray, List.all_eq_true] at h
    simp only [decodeTodos]
    exact mapM_decode_err_of elems (by simpa using h)
  | null => rfl
  | bool b => rfl
  | num n => rfl
  | str s => rfl
  | obj fields => rfl

/-- `toggleTodo` never changes any task's id. -/
theorem toggleTodo_map_id (i : String) (todos : List Todo) :
    (toggleTodo i todos).map Todo.id = todos.map Todo.id := by
  unfold toggleTodo
  rw [List.map_map]
  apply List.map_congr_left
  intro t _
  by_cases h : t.id = i <;> simp [h]

/-- Every user operation preserves distinctness of the ids in the
collection (add relies on the freshness of the generated id). -/
theorem step_preserves_nodup {s s' : AppState} (hs : Step s s')
    (h : (s.todos.map Todo.id).Nodup) : (s'.todos.map Todo.id).Nodup := by
  cases hs with
  | add inputValue freshId now s hfresh =>
    by_cases he : (jsTrim inputValue).isEmpty
    · simpa [stepAdd, he] using h
    · have hcons : (freshId :: s.todos.map Todo.id).Nodup :=
        List.nodup_cons.mpr ⟨hfresh, h⟩
      simpa [stepAdd, he, persistEffect, addTodo] using hcons
  | toggle i s =>
    simpa [stepToggle, persistEffect, toggleTodo_map_id] using h
  | deleteOne i s =>
    simp only [stepDelete, persistEffect, deleteTodo]
    exact h.sublist ((List.filter_sublist s.todos).map Todo.id)
  | clearCompleted s =>
    simp only [stepClear, persistEffect, clearCompleted]
    exact h.sublist ((List.filter_sublist s.todos).map Todo.id)

/-- `toggleTodo` is the identity on a collection in which no task carries
the toggled id. -/
theorem toggleTodo_eq_of_absent (i : String) (l : List Todo)
    (h : ∀ t ∈ l, t.id ≠ i) : toggleTodo i l = l := by
  induction l with
  | nil => rfl
  | cons t ts ih =>
    simp only [toggleTodo, List.map_cons]
    rw [if_neg (by simpa [beq_iff_eq] using h t (by simp))]
    have htail := ih fun u hu => h u (List.mem_cons_of_mem t hu)
    simp only [toggleTodo] at htail
    rw [htail]

/-! ### Verification theorems -/

/-- C1: after every operation — indeed for every collection whatsoever —
`stats()` satisfies `pending + completed == total`: the tasks counted by
the `!t.completed` filter and those counted by the `t.completed` filter
partition the collection. -/
theorem stats_invariant (todos : List Todo) :
    (stats todos).pending + (stats todos).completed = (stats todos).total := by
  induction todos with
  | nil => rfl
  | cons t ts ih =>
    simp [stats, List.filter] at ih ⊢
    cases h : t.completed <;> simp [h] <;> omega

/-- C2: on an input whose trimmed form is non-empty, `addTodo` prepends a
new task with the generated id, the trimmed text, `completed = false` and
`createdAt = now`, leaving all previous tasks unchanged in order behind
it; `deriveView('all')` therefore yields the new task first, and a fresh
id keeps the collection's ids pairwise distinct. -/
theorem addTodo_spec (inputValue freshId : String) (now : Nat) (todos : List Todo)
    (h : (jsTrim inputValue).isEmpty = false) :
    addTodo inputValue freshId now todos =
      { id := freshId, text := jsTrim inputValue, completed := false,
        createdAt := now } :: todos ∧
    filteredTodos .all (addTodo inputValue freshId now todos) =
      { id := freshId, text := jsTrim inputValue, completed := false,
        createdAt := now } :: todos ∧
    (freshId ∉ todos.map Todo.id → (todos.map Todo.id).Nodup →
      ((addTodo inputValue freshId now todos).map Todo.id).Nodup) := by
  refine ⟨by simp [addTodo, h], by simp [addTodo, h, filteredTodos], ?_⟩
  intro hfresh hnd
  simp only [addTodo, h, if_false, List.map_cons]
  exact List.nodup_cons.mpr ⟨hfresh, hnd⟩

/-- Witness for C2: `add("Buy milk")` on the empty collection yields
"Buy milk" as the first (and only) task. -/
theorem addTodo_spec_witness :
    ((jsTrim "Buy milk").isEmpty = false) ∧
    addTodo "Buy milk" "u1" 5 [] =
      [{ id := "u1", text := "Buy milk", completed := false, createdAt := 5 }] :=
  ⟨by decide, (addTodo_spec "Buy milk" "u1" 5 [] (by decide)).1⟩

/-- C3: on an input whose trimmed form is empty, the add event is a
complete no-op: the component state is untouched, no task is created,
`stats()` is unchanged, and no persistence write happens (the handler
returns before `setTodos`, so the persistence effect does not re-run). -/
theorem addTodo_empty_noop (inputValue freshId : String) (now : Nat) (s : AppState)
    (h : (jsTrim inputValue).isEmpty = true) :
    stepAdd inputValue freshId now s = s ∧
    addTodo inputValue freshId now s.todos = s.todos ∧
    stats (stepAdd inputValue freshId now s).todos = stats s.todos ∧
    (stepAdd inputValue freshId now s).writes = s.writes := by
  simp [stepAdd, addTodo, h]

/-- Witness for C3: `add("   ")` on a freshly mounted empty application
changes nothing. -/
theorem addTodo_empty_noop_witness :
    ((jsTrim "   ").isEmpty = true) ∧
    stepAdd "   " "u1" 5 { todos := [], store := [], writes := 0 } =
      { todos := [], store := [], writes := 0 } :=
  ⟨by decide, (addTodo_empty_noop "   " "u1" 5 _ (by decide)).1⟩

/-- C4: on a collection with pairwise-distinct ids (the spec's Task
Collection invariant), `toggleTodo` of an absent id is a no-op, and
`toggleTodo` of a present id flips exactly that task's `completed` flag
in place: the tasks before it and after it — and every other field of
the toggled task — are unchanged. -/
theorem toggleTodo_frame (i : String) (todos : List Todo)
    (hnd : (todos.map Todo.id).Nodup) :
    ((∀ t ∈ todos, t.id ≠ i) → toggleTodo i todos = todos) ∧
    (∀ pre t post, todos = pre ++ t :: post → t.id = i →
      toggleTodo i todos = pre ++ { t with completed := !t.completed } :: post) := by
  constructor
  · exact toggleTodo_eq_of_absent i todos
  · intro pre t post hdec htid
    subst hdec
    rw [List.map_append, List.map_cons, List.nodup_append] at hnd
    obtain ⟨h1, h2, hdisj⟩ := hnd
    rw [List.nodup_cons] at h2
    obtain ⟨hnotin, h3⟩ := h2
    have hpre : ∀ u ∈ pre, u.id ≠ i := by
      intro u hu heq
      exact hdisj (List.mem_map_of_mem Todo.id hu) (by simp [heq, htid])
    have hpost : ∀ u ∈ post, u.id ≠ i := by
      intro u hu heq
      have huid : u.id = t.id := by rw [heq, htid]
      exact hnotin (by rw [← huid]; exact List.mem_map_of_mem Todo.id hu)
    have hpre2 := toggleTodo_eq_of_absent i pre hpre
    have hpost2 := toggleTodo_eq_of_absent i post hpost
    simp only [toggleTodo] at hpre2 hpost2 ⊢
    rw [List.map_append, List.map_cons, hpre2, hpost2,
      if_pos (by simp [beq_iff_eq, htid])]

/-- Witness for C4: in the two-task collection `[a, b]`, toggling `"b"`
flips only `b`, and toggling the absent id `"zzz"` changes nothing. -/
theorem toggleTodo_frame_witness :
    (([⟨"a", "A", false, 0⟩, ⟨"b", "B", false, 1⟩] : List Todo).map Todo.id).Nodup ∧
    toggleTodo "b" [⟨"a", "A", false, 0⟩, ⟨"b", "B", false, 1⟩] =
      [⟨"a", "A", false, 0⟩, ⟨"b", "B", true, 1⟩] ∧
    toggleTodo "zzz" [⟨"a", "A", false, 0⟩, ⟨"b", "B", false, 1⟩] =
      [⟨"a", "A", false, 0⟩, ⟨"b", "B", false, 1⟩] :=
  ⟨by decide,
   (toggleTodo_frame "b" _ (by decide)).2 [⟨"a", "A", false, 0⟩] ⟨"b", "B", false, 1⟩ []
     rfl rfl,
   (toggleTodo_frame "zzz" _ (by decide)).1 (by decide)⟩

/-- C5: `toggleTodo` with the same id is its own inverse on the
collection state — applying it twice restores every task, and in
particular every `completed` flag, to its original value. -/
theorem toggleTodo_involutive (i : String) (todos : List Todo) :
    toggleTodo i (toggleTodo i todos) = todos := by
  unfold toggleTodo
  rw [List.map_map]
  apply List.map_id''
  intro t
  by_cases h : t.id = i
  · subst h
    simp
  · simp [h]

/-- C6: clear-completed is idempotent — it removes exactly the tasks with
`completed == true`, keeping the remainder in their relative order (a
sublist of the original), so a second application removes nothing. -/
theorem clearCompleted_idempotent (todos : List Todo) :
    clearCompleted (clearCompleted todos) = clearCompleted todos ∧
    (∀ t, t ∈ clearCompleted todos ↔ t ∈ todos ∧ t.completed = false) ∧
    List.Sublist (clearCompleted todos) todos := by
  refine ⟨by simp [clearCompleted, List.filter_filter], ?_, List.filter_sublist todos⟩
  intro t
  simp [clearCompleted, List.mem_filter]

/-- C7: saving any collection and loading it back returns exactly that
collection — order and all four fields of every task are preserved by the
serialization. -/
theorem load_save_roundtrip (store : LocalStorage) (C : List Todo) :
    loadTodos (saveTodos store C) = .ok C := by
  simp [loadTodos, saveTodos, getItem, setItem, todosKey, List.lookup,
    decodeTodos_encodeTodos]

/-- C8: when nothing is stored under the fixed key, `load` returns the
empty collection; when a value is present, `load` is exactly its
deserialization: it succeeds whenever the value has the task-array shape
and otherwise fails with the propagating `MalformedStateError` — it is
never recovered to an empty collection. -/
theorem loadTodos_contract (store : LocalStorage) :
    (getItem store todosKey = none → loadTodos store = .ok []) ∧
    (∀ j, getItem store todosKey = some j →
      loadTodos store = decodeTodos j ∧
      (isTaskArray j = true → ∃ ts, loadTodos store = .ok ts) ∧
      (isTaskArray j = false →
        loadTodos store = .error "MalformedStateError")) := by
  constructor
  · intro h
    simp [loadTodos, h]
  · intro j hj
    refine ⟨by simp [loadTodos, hj], ?_, ?_⟩
    · intro hshape
      obtain ⟨ts, hts⟩ := decodeTodos_ok_of j hshape
      exact ⟨ts, by simp [loadTodos, hj, hts]⟩
    · intro hshape
      simp [loadTodos, hj, decodeTodos_err_of j hshape]

/-- Witness for C8: an empty store loads as the empty collection, and a
stored non-array value makes loading fail with `MalformedStateError`. -/
theorem loadTodos_contract_witness :
    loadTodos ([] : LocalStorage) = .ok [] ∧
    loadTodos [(todosKey, Json.num 5)] = .error "MalformedStateError" :=
  ⟨(loadTodos_contract []).1 rfl,
   (((loadTodos_contract [(todosKey, Json.num 5)]).2 (Json.num 5) rfl).2).2 rfl⟩

/-- C9, counterexample: id uniqueness does not hold in every reachable
state as claimed, because the stored value is deserialized without
validation — initializing from a store holding two records with the same
id `"a"` yields a reachable state whose collection has duplicate ids. -/
theorem reachable_dup_ids_cex :
    ¬ ∀ s : AppState, Reachable s → (s.todos.map Todo.id).Nodup := by
  intro hall
  have hload : loadTodos
      [("todos", Json.arr [encodeTodo ⟨"a", "x", false, 0⟩,
        encodeTodo ⟨"a", "x", false, 0⟩])] =
      .ok [⟨"a", "x", false, 0⟩, ⟨"a", "x", false, 0⟩] := rfl
  have hnd := hall _ (Reachable.init _ _ hload)
  simp [initApp, persistEffect, List.nodup_cons] at hnd

/-- C9, amended: provided the collection restored at initialization has
pairwise-distinct ids (absent or previously saved well-formed storage),
every state reachable by user operations keeps the ids pairwise distinct
— `addTodo` inserts only fresh generated ids and the other operations
never create ids. -/
theorem reachable_ids_nodup (store : LocalStorage) (todos : List Todo) (s : AppState)
    (_hload : loadTodos store = .ok todos)
    (hnd : (todos.map Todo.id).Nodup)
    (hr : Relation.ReflTransGen Step (initApp store todos) s) :
    (s.todos.map Todo.id).Nodup := by
  induction hr with
  | refl => simpa [initApp, persistEffect] using hnd
  | tail hab hbc ih => exact step_preserves_nodup hbc ih

/-- Witness for C9 (amended): the freshly mounted application over an
empty store has pairwise-distinct ids. -/
theorem reachable_ids_nodup_witness :
    loadTodos ([] : LocalStorage) = .ok [] ∧
    ((([] : List Todo)).map Todo.id).Nodup ∧
    (((initApp [] []).todos.map Todo.id)).Nodup :=
  ⟨rfl, by simp,
   reachable_ids_nodup [] [] (initApp [] []) rfl (by simp) Relation.ReflTransGen.refl⟩

/-- C10: `toggleTodo` and `deleteTodo` act on every matching task, not at
most one: position by position, toggling flips exactly the tasks whose id
equals the argument, and deletion keeps a task iff its id differs from
the argument — so duplicate ids (possible via unvalidated storage) are
all flipped or removed by a single call. -/
theorem toggle_delete_all_matches (i : String) (todos : List Todo) :
    (toggleTodo i todos).length = todos.length ∧
    (∀ k (hk : k < todos.length) (hk2 : k < (toggleTodo i todos).length),
      (toggleTodo i todos).get ⟨k, hk2⟩ =
        (if (todos.get ⟨k, hk⟩).id = i
         then { todos.get ⟨k, hk⟩ with
                  completed := !(todos.get ⟨k, hk⟩).completed }
         else todos.get ⟨k, hk⟩)) ∧
    (∀ t, t ∈ deleteTodo i todos ↔ t ∈ todos ∧ t.id ≠ i) := by
  refine ⟨by simp [toggleTodo], ?_, ?_⟩
  · intro k hk hk2
    simp [toggleTodo, List.get_eq_getElem, List.getElem_map, beq_iff_eq]
  · intro t
    simp [deleteTodo, List.mem_filter, bne_iff_ne]

/-- Witness for C10: with two tasks sharing the id `"a"`, one toggle
flips both and one delete removes both. -/
theorem toggle_delete_all_matches_witness :
    (0 < ([⟨"a", "A", false, 0⟩, ⟨"a", "B", true, 1⟩] : List Todo).length) ∧
    toggleTodo "a" [⟨"a", "A", false, 0⟩, ⟨"a", "B", true, 1⟩] =
      [⟨"a", "A", true, 0⟩, ⟨"a", "B", false, 1⟩] ∧
    deleteTodo "a" [⟨"a", "A", false, 0⟩, ⟨"a", "B", true, 1⟩] = [] := by
  refine ⟨by decide, ?_, by decide⟩
  have h := (toggle_delete_all_matches "a"
    [⟨"a", "A", false, 0⟩, ⟨"a", "B", true, 1⟩]).2.1
  have h0 := h 0 (by decide) (by decide)
  have h1 := h 1 (by decide) (by decide)
  simp at h0 h1
  decide

end MinhasTarefas
